import Mathlib

/-!
Verification of the download-link resolution engine of `src/script.js`
(rustore-downloader).

The development shallowly embeds the code that the claims are about:

* the Profile Negotiator — the `requestedDensity` / `densityCandidates` /
  `withoutSplitsCandidates` computation at the top of `downloadApp`
  (script.js lines 564-583), including `guessAndroidScreenDensity`;
* the Download Link Resolver — the nested trial loop of `downloadApp`
  (lines 582-610) together with the error behaviour of
  `requestDownloadLink` (lines 285-313);
* the Artifact Descriptor Builder — `buildDownloadPlan` inside
  `renderDownloadLinks` (lines 324-355);
* the Export Formatters — the link list (line 477), the PowerShell script
  (lines 503-518) and the curl script (lines 525-535).

JavaScript pecularities are translated explicitly: string truthiness
(`!!s` is `s ≠ ""`), `x || d` on possibly-null values, `?? 'unknown'`,
and `Array.prototype.sort`, which ECMAScript requires to be stable, is
rendered by a stable insertion sort on the same comparator key.
Network effects are represented by a `service` oracle mapping each tried
profile to the observed call result; the resolver is instrumented to also
return the ordered list of profiles for which a call was issued.
-/

namespace RuStore

/-- A raw entry of `body.downloadUrls` as delivered by the upstream service
(`{url, size?, hash?}`); `none` stands for a JS `undefined`/`null` field.
The `url` field is also optional because the code guards it with a
truthiness check before use. -/
structure RawArtifact where
  url : Option String
  size : Option Int
  hash : Option String
deriving DecidableEq, Repr

/-- The `body` part of a successful `/v2/download-link` response. -/
structure RespBody where
  appId : Option Int
  versionCode : Option Int
  versionId : Option Int
  signature : Option String
  downloadUrls : List RawArtifact
deriving DecidableEq, Repr

/-- A parsed response envelope: `{ code, message?, body? }`. -/
structure RespData where
  code : String
  message : Option String
  body : Option RespBody
deriving DecidableEq, Repr

/-- Observable result of one `requestDownloadLink` call: either the fetch
came back non-2xx (`response.ok` false, so the helper throws
`HTTP {status}: ...`), or a JSON envelope was obtained. -/
inductive CallResult where
  | transportError (status : Nat) (message : Option String)
  | ok (data : RespData)
deriving DecidableEq, Repr

/-- A (screenDensity, withoutSplits) trial profile. -/
structure Profile where
  screenDensity : Int
  withoutSplits : Bool
deriving DecidableEq, Repr

/-- Terminal state of one `downloadApp` resolution attempt:
success rendering (tagged with the profile used), the all-profiles-empty
fallback rendering (which shows the last response's JSON), or the error
rendering of the outer `catch`. -/
inductive Outcome where
  | success (profile : Profile) (data : RespData)
  | emptyExhausted (lastData : Option RespData) (lastMeta : Profile)
  | failure (message : String)
deriving DecidableEq, Repr

/-- JS string truthiness: a string is truthy iff non-empty (used for
`!!i.url`, `u?.hash ? ... : null`, `.filter(Boolean)`). -/
def truthyStr : Option String → Bool
  | none => false
  | some s => s ≠ ""

/-- JS `m || d` on an optional string (falsy = absent or empty). -/
def strOr (m : Option String) (d : String) : String :=
  match m with
  | none => d
  | some s => if s = "" then d else s

/-- `const urls = data?.body?.downloadUrls || []` (script.js line 591;
an empty array is itself truthy, so only a missing body yields `[]`). -/
def urlsOf (data : RespData) : List RawArtifact :=
  (data.body.map RespBody.downloadUrls).getD []

/-- `guessAndroidScreenDensity` (script.js lines 28-39): bucket the
device-pixel-ratio-like signal and clamp to at least 240.  The JS reads
`Number(window.devicePixelRatio || 1)`; the signal is passed in here as a
rational. -/
def guessAndroidScreenDensity (dpr0 : ℚ) : Int :=
  let dpr : ℚ := if dpr0 = 0 then 1 else dpr0
  let density : Int :=
    if dpr ≥ 4 then 640
    else if dpr ≥ 3 then 480
    else if dpr ≥ 2 then 320
    else if dpr ≥ 3/2 then 240
    else 160
  max 240 density

/-- Worker for `dedupFirst`: keep an element iff it has not been seen
yet, exactly as a JS `Set` accumulates insertion-ordered members. -/
def dedupFirstAux (seen : List Int) : List Int → List Int
  | [] => []
  | x :: xs =>
    if x ∈ seen then dedupFirstAux seen xs
    else x :: dedupFirstAux (x :: seen) xs

/-- First-occurrence deduplication, the meaning of
`Array.from(new Set(...))` (a JS `Set` preserves insertion order of the
first occurrence of each element). -/
def dedupFirst (l : List Int) : List Int :=
  dedupFirstAux [] l

/-- `requestedDensity` (script.js lines 564-566): the explicit density if
the caller supplied a finite number, else the device-derived guess. -/
def requestedDensity (explicitDensity : Option Int) (dpr : ℚ) : Int :=
  match explicitDensity with
  | some d => d
  | none => guessAndroidScreenDensity dpr

/-- `densityCandidates` (script.js lines 569-576): the requested density
followed by the fixed fallback ladder, first-occurrence-deduplicated. -/
def densityCandidates (explicitDensity : Option Int) (dpr : ℚ) : List Int :=
  dedupFirst [requestedDensity explicitDensity dpr, 480, 320, 240, 160, 0]

/-- The full ordered trial list produced by the nested loops of
`downloadApp` (lines 582-583): for each density in order,
`withoutSplits = false` then `true`. -/
def profileTrials (explicitDensity : Option Int) (dpr : ℚ) : List Profile :=
  (densityCandidates explicitDensity dpr).flatMap
    (fun d => [{ screenDensity := d, withoutSplits := false },
               { screenDensity := d, withoutSplits := true }])

/-- The trial loop of `downloadApp` (script.js lines 582-597 plus the
exhaustion branch at 599-610 and the `catch` at 611-614), instrumented
with the ordered list of profiles for which a resolution call was issued.

* a non-2xx transport result makes `requestDownloadLink` throw, reaching
  the outer `catch` (failure rendering);
* `data?.code !== 'OK'` throws `data?.message || 'Server returned error'`;
* a non-empty `downloadUrls` renders success for the current profile and
  returns;
* otherwise the loop records `lastData`/`lastMeta` and continues; an
  exhausted loop renders the distinct "no download URLs" state. -/
def resolveLoop (service : Profile → CallResult) :
    List Profile → Option RespData → Profile → Outcome × List Profile
  | [], lastData, lastMeta => (Outcome.emptyExhausted lastData lastMeta, [])
  | p :: rest, _lastData, _lastMeta =>
    match service p with
    | CallResult.transportError status msg =>
        (Outcome.failure ("HTTP " ++ toString status ++ ": " ++ strOr msg "Unknown error"), [p])
    | CallResult.ok data =>
        if data.code ≠ "OK" then
          (Outcome.failure (strOr data.message "Server returned error"), [p])
        else if urlsOf data ≠ [] then
          (Outcome.success p data, [p])
        else
          let r := resolveLoop service rest (some data) p
          (r.1, p :: r.2)

/-- `downloadApp`'s resolution part (script.js lines 563-615): build the
trial ladder and run the loop.  `lastMeta` starts as
`{ screenDensity: requestedDensity, withoutSplitsUsed: false }`. -/
def downloadApp (service : Profile → CallResult)
    (explicitDensity : Option Int) (dpr : ℚ) : Outcome × List Profile :=
  resolveLoop service (profileTrials explicitDensity dpr) none
    { screenDensity := requestedDensity explicitDensity dpr, withoutSplits := false }

/-- Decidable check: the call produced `code = "OK"` with an empty
`downloadUrls` list (the "try next profile" case). -/
def okEmptyB (r : CallResult) : Bool :=
  match r with
  | CallResult.ok data => data.code == "OK" && (urlsOf data).isEmpty
  | CallResult.transportError _ _ => false

/-- Decidable check: the call produced `code = "OK"` with at least one
artifact (the short-circuiting success case). -/
def okNonemptyB (r : CallResult) : Bool :=
  match r with
  | CallResult.ok data => data.code == "OK" && !(urlsOf data).isEmpty
  | CallResult.transportError _ _ => false

/-- Decidable check: the call result has an error status (non-2xx
transport status, or an envelope code other than "OK"). -/
def errB (r : CallResult) : Bool :=
  match r with
  | CallResult.ok data => data.code != "OK"
  | CallResult.transportError _ _ => true

/-- One element of the `items` array of `buildDownloadPlan` (script.js
lines 326-333): original index, the (truthy) url, `size` if it was a
number, and the hash if truthy. -/
structure Item where
  idx : Nat
  url : String
  size : Option Int
  hash : Option String
deriving DecidableEq, Repr

/-- `urls.map((u, idx) => ({idx, url, size, hash})).filter(i => !!i.url)`
(script.js lines 326-333), written with an explicit index counter. -/
def mkItems : Nat → List RawArtifact → List Item
  | _, [] => []
  | n, u :: us =>
    if truthyStr u.url then
      { idx := n
        url := u.url.getD ""
        size := u.size
        hash := match u.hash with
                | some h => if h = "" then none else some h
                | none => none } :: mkItems (n + 1) us
    else
      mkItems (n + 1) us

/-- The sort key `a.size || 0` of the comparator at script.js line 335. -/
def sizeKey (i : Item) : Int :=
  i.size.getD 0

/-- Stable insertion of an element into a list sorted by decreasing
`sizeKey`: the inserted element goes before the first element whose key
is not larger, so an element originally on the left stays left of
equal-key elements. -/
def insertBySizeDesc (x : Item) : List Item → List Item
  | [] => [x]
  | y :: ys =>
    if sizeKey y ≤ sizeKey x then x :: y :: ys
    else y :: insertBySizeDesc x ys

/-- `[...items].sort((a, b) => (b.size || 0) - (a.size || 0))`
(script.js line 335).  ECMAScript `Array.prototype.sort` is a stable
sort, and a stable sort by a fixed key is unique as a function, so this
stable insertion sort is its denotation. -/
def sortBySizeDesc : List Item → List Item
  | [] => []
  | x :: xs => insertBySizeDesc x (sortBySizeDesc xs)

/-- An entry of the returned download plan (script.js lines 339-354):
the item fields plus role, config sequence number, and filename. -/
structure Descriptor where
  idx : Nat
  url : String
  size : Option Int
  hash : Option String
  role : String
  sequenceNumber : Option Nat
  filename : String
deriving DecidableEq, Repr

/-- `(i.hash || '').replace(/[^a-zA-Z0-9]/g, '').slice(0, 12)`
(script.js line 340): keep ASCII alphanumeric characters, truncate
to 12. -/
def safeHash (h : Option String) : String :=
  (((h.getD "").toList.filter (fun c => c.isAlphanum)).take 12).asString

/-- `${safeHash ? '_' + safeHash : ''}` in the filename templates. -/
def hashSuffix (h : Option String) : String :=
  if safeHash h = "" then "" else "_" ++ safeHash h

/-- `data?.body?.versionCode ?? 'unknown'` (script.js line 325) as it is
rendered inside the filename template literal. -/
def vcRender : Option Int → String
  | some v => toString v
  | none => "unknown"

/-- The `items.map` with the mutable `configCounter` (script.js lines
337-354): the item whose index is `baseIdx` becomes the `base` artifact,
every other item becomes `config` number `counter`, `counter`
incrementing in list order. -/
def assignRoles (appId : Int) (vc : Option Int) (baseIdx : Option Nat) :
    Nat → List Item → List Descriptor
  | _, [] => []
  | counter, i :: rest =>
    if baseIdx = some i.idx then
      { idx := i.idx, url := i.url, size := i.size, hash := i.hash
        role := "base"
        sequenceNumber := none
        filename := "rustore_" ++ toString appId ++ "_" ++ vcRender vc
          ++ "_base" ++ hashSuffix i.hash ++ ".apk" }
        :: assignRoles appId vc baseIdx counter rest
    else
      { idx := i.idx, url := i.url, size := i.size, hash := i.hash
        role := "config"
        sequenceNumber := some counter
        filename := "rustore_" ++ toString appId ++ "_" ++ vcRender vc
          ++ "_config" ++ toString counter ++ hashSuffix i.hash ++ ".apk" }
        :: assignRoles appId vc baseIdx (counter + 1) rest

/-- `buildDownloadPlan` (script.js lines 324-355): build the items,
pick `baseIdx = sortedBySize[0]?.idx`, then assign roles and filenames
with the config counter starting at 1. -/
def buildDownloadPlan (appId : Int) (vc : Option Int)
    (urls : List RawArtifact) : List Descriptor :=
  let items := mkItems 0 urls
  let baseIdx := (sortBySizeDesc items).head?.map Item.idx
  assignRoles appId vc baseIdx 1 items

/-- The item data carried (by object spread) inside a descriptor. -/
def Descriptor.toItem (d : Descriptor) : Item :=
  { idx := d.idx, url := d.url, size := d.size, hash := d.hash }

/-- `allLinks = urls.map(u => u.url).filter(Boolean)` (script.js
line 320). -/
def allLinks (urls : List RawArtifact) : List String :=
  urls.filterMap (fun u =>
    match u.url with
    | some s => if s = "" then none else some s
    | none => none)

/-- `isSplitSet = allLinks.length > 1` (script.js line 322). -/
def isSplitSet (urls : List RawArtifact) : Bool :=
  decide (1 < (allLinks urls).length)

/-- `Array.prototype.join('\n')` on a list of lines. -/
def joinNL : List String → String
  | [] => ""
  | [x] => x
  | x :: y :: xs => x ++ "\n" ++ joinNL (y :: xs)

/-- The "Copy links" payload `allLinks.join('\n')` (script.js
line 477). -/
def toLinkList (links : List String) : String :=
  joinNL links

/-- The lines pushed by the "Copy PowerShell script" handler (script.js
lines 503-517): preamble, one `Invoke-WebRequest` per plan item, the
done message, and — only for a split set — the adb install block. -/
def pwshLines (plan : List Descriptor) (split : Bool) : List String :=
  ["$ErrorActionPreference = \"Stop\"",
   "$outDir = Join-Path $PWD \"downloads\"",
   "New-Item -ItemType Directory -Force -Path $outDir | Out-Null"]
  ++ plan.map (fun item =>
      "Invoke-WebRequest -Uri \"" ++ item.url ++ "\" -OutFile (Join-Path $outDir \""
        ++ item.filename ++ "\")")
  ++ ["Write-Host \"Done. Files saved to\" $outDir"]
  ++ (if split then
        ["",
         "# Install (requires adb in PATH and USB debugging enabled)",
         "$apks = Get-ChildItem -Path $outDir -Filter \"*.apk\" | Sort-Object Length -Descending | Select-Object -ExpandProperty FullName",
         "Write-Host \"Running: adb install-multiple <all apks>\"",
         "adb install-multiple @apks"]
      else [])

/-- `lines.join('\n')` of the PowerShell handler (script.js line 518). -/
def pwshScript (plan : List Descriptor) (split : Bool) : String :=
  joinNL (pwshLines plan split)

/-- The lines pushed by the "Copy curl commands" handler (script.js
lines 525-534): `mkdir`, one `curl` per plan item, and — only for a
split set — the adb install block. -/
def curlLines (plan : List Descriptor) (split : Bool) : List String :=
  ["mkdir -p downloads"]
  ++ plan.map (fun item =>
      "curl -L \"" ++ item.url ++ "\" -o \"downloads/" ++ item.filename ++ "\"")
  ++ (if split then
        ["",
         "# Install (requires adb)",
         "adb install-multiple downloads/*.apk"]
      else [])

/-- `lines.join('\n')` of the curl handler (script.js line 535). -/
def curlScript (plan : List Descriptor) (split : Bool) : String :=
  joinNL (curlLines plan split)

/-- A successful response with an empty artifact list. -/
def emptyResp : RespData :=
  { code := "OK", message := none
    body := some { appId := some 1, versionCode := some 7, versionId := some 3
                   signature := some "sig", downloadUrls := [] } }

/-- A successful response with one artifact. -/
def fullResp : RespData :=
  { code := "OK", message := none
    body := some { appId := some 1, versionCode := some 7, versionId := some 3
                   signature := some "sig"
                   downloadUrls := [{ url := some "https://x/a.apk", size := some 10, hash := none }] } }

/-- Mock service: `"OK"` with an empty artifact list for every profile. -/
def mockEmptyService : Profile → CallResult :=
  fun _ => CallResult.ok emptyResp

/-- Mock service: empty artifact lists everywhere except at the profile
`(160, withoutSplits = true)`, which yields one artifact. -/
def mockService160 : Profile → CallResult :=
  fun p =>
    if p.screenDensity = 160 && p.withoutSplits then CallResult.ok fullResp
    else CallResult.ok emptyResp

/-- Mock service: a non-"OK" envelope on every call. -/
def mockErrService : Profile → CallResult :=
  fun _ => CallResult.ok { code := "ERROR", message := some "boom", body := none }

/-- Concrete artifact list exercising the size tie-break (two entries
share the maximal size) and a url-less entry. -/
def exArtifacts : List RawArtifact :=
  [{ url := some "https://x/a.apk", size := some 5, hash := none },
   { url := none, size := some 99, hash := none },
   { url := some "https://x/b.apk", size := some 9, hash := some "h1" },
   { url := some "https://x/c.apk", size := some 9, hash := some "h2" }]

/-- Concrete single-artifact list with the spec's truncation example
hash `"ab-cd!!12345678901234"`. -/
def exHashArtifacts : List RawArtifact :=
  [{ url := some "https://x/a.apk", size := some 5
     hash := some "ab-cd!!12345678901234" }]

/-- The descriptor `buildDownloadPlan 1 none exHashArtifacts` produces. -/
def exHashDescriptor : Descriptor :=
  { idx := 0, url := "https://x/a.apk", size := some 5
    hash := some "ab-cd!!12345678901234", role := "base", sequenceNumber := none
    filename := "rustore_1_unknown_base_abcd12345678.apk" }

/-- Numeric value of a decimal digit character (proof machinery for
reasoning about the decimal numerals embedded in filenames). -/
def digitVal (c : Char) : Nat :=
  c.toNat - Char.toNat '0'

/-- Value denoted by a big-endian list of decimal digit characters
(proof machinery for the injectivity of decimal rendering). -/
def valOfDigits : List Char → Nat
  | [] => 0
  | c :: cs => digitVal c * 10 ^ cs.length + valOfDigits cs

/-! ### Lemmas about first-occurrence deduplication -/

theorem mem_dedupFirstAux (a : Int) :
    ∀ (l seen : List Int), a ∈ dedupFirstAux seen l ↔ a ∈ l ∧ a ∉ seen := by
  intro l
  induction l with
  | nil => intro seen; simp [dedupFirstAux]
  | cons x xs ih =>
    intro seen
    rw [dedupFirstAux]
    by_cases hx : x ∈ seen
    · rw [if_pos hx, ih]
      by_cases hax : a = x
      · subst hax; simp [hx]
      · simp [hax]
    · rw [if_neg hx]
      by_cases hax : a = x
      · subst hax; simp [hx]
      · simp only [List.mem_cons, hax, false_or, ih, List.mem_cons, or_iff_right hax]

theorem nodup_dedupFirstAux :
    ∀ (l seen : List Int), (dedupFirstAux seen l).Nodup := by
  intro l
  induction l with
  | nil => intro seen; simp [dedupFirstAux]
  | cons x xs ih =>
    intro seen
    rw [dedupFirstAux]
    by_cases hx : x ∈ seen
    · rw [if_pos hx]; exact ih seen
    · rw [if_neg hx]
      refine List.nodup_cons.mpr ⟨?_, ih _⟩
      intro hmem
      exact ((mem_dedupFirstAux x xs _).mp hmem).2 (List.mem_cons_self x seen)

theorem nodup_dedupFirst (l : List Int) : (dedupFirst l).Nodup :=
  nodup_dedupFirstAux l []

theorem mem_dedupFirst (a : Int) (l : List Int) : a ∈ dedupFirst l ↔ a ∈ l := by
  rw [dedupFirst, mem_dedupFirstAux]
  simp

theorem dedupFirstAux_append_singleton (a : Int) :
    ∀ (l seen : List Int), a ∉ l → a ∉ seen →
      dedupFirstAux seen (l ++ [a]) = dedupFirstAux seen l ++ [a] := by
  intro l
  induction l with
  | nil =>
    intro seen _ hseen
    simp [dedupFirstAux, hseen]
  | cons x xs ih =>
    intro seen hnotl hseen
    have hax : a ≠ x := fun h => hnotl (by simp [h])
    rw [List.cons_append, dedupFirstAux, dedupFirstAux]
    by_cases hx : x ∈ seen
    · rw [if_pos hx, if_pos hx, ih seen (fun h => hnotl (List.mem_cons_of_mem x h)) hseen]
    · rw [if_neg hx, if_neg hx,
        ih (x :: seen) (fun h => hnotl (List.mem_cons_of_mem x h))
          (by simp [hax, hseen])]
      rfl

theorem dedupFirst_append_singleton (a : Int) (l : List Int) (h : a ∉ l) :
    dedupFirst (l ++ [a]) = dedupFirst l ++ [a] :=
  dedupFirstAux_append_singleton a l [] h (by simp)

theorem guess_ge_240 (dpr : ℚ) : 240 ≤ guessAndroidScreenDensity dpr :=
  le_max_left _ _

/-- C4: the density sequence contains no duplicates; a supplied explicit
density appears first; `0` appears exactly once and is last unless the
explicit density itself was `0`. -/
theorem density_sequence_props (e : Option Int) (dpr : ℚ) :
    (densityCandidates e dpr).Nodup ∧
    (∀ d, e = some d → (densityCandidates e dpr).head? = some d) ∧
    (densityCandidates e dpr).count 0 = 1 ∧
    (e ≠ some 0 → (densityCandidates e dpr).getLast? = some 0) := by
  refine ⟨nodup_dedupFirst _, ?_, ?_, ?_⟩
  · rintro d rfl
    rw [densityCandidates, requestedDensity, dedupFirst, dedupFirstAux,
      if_neg (List.not_mem_nil d), List.head?_cons]
  · exact List.count_eq_one_of_mem (nodup_dedupFirst _)
      ((mem_dedupFirst 0 _).mpr (by simp))
  · intro hne
    have hr : requestedDensity e dpr ≠ 0 := by
      match e with
      | some d =>
        intro h
        exact hne (by simpa [requestedDensity] using congrArg some h)
      | none =>
        have := guess_ge_240 dpr
        simp only [requestedDensity]
        omega
    have hdecomp :
        densityCandidates e dpr
          = dedupFirst [requestedDensity e dpr, 480, 320, 240, 160] ++ [0] := by
      rw [densityCandidates,
        show [requestedDensity e dpr, 480, 320, 240, 160, 0]
            = [requestedDensity e dpr, 480, 320, 240, 160] ++ [0] from rfl]
      exact dedupFirst_append_singleton 0 _ (by simp [Ne.symm hr])
    rw [hdecomp, List.getLast?_concat]

/-- Witness for C4 at the concrete explicit density 5 and signal 2. -/
theorem density_sequence_props_witness :
    ((some (5 : Int) = some 5) ∧ ¬ (some (5 : Int) = some 0)) ∧
    (densityCandidates (some 5) 2).head? = some 5 ∧
    (densityCandidates (some 5) 2).getLast? = some 0 :=
  ⟨⟨rfl, by decide⟩,
   (density_sequence_props (some 5) 2).2.1 5 rfl,
   (density_sequence_props (some 5) 2).2.2.2 (by decide)⟩

/-! ### The resolution loop -/

/-- One step of the loop in the "OK but empty" case: record the response
and continue with the remaining trials. -/
theorem resolveLoop_cons_empty (service : Profile → CallResult) (p : Profile)
    (rest : List Profile) (ld : Option RespData) (lm : Profile) (data : RespData)
    (hsp : service p = CallResult.ok data) (hcode : data.code = "OK")
    (hurl : urlsOf data = []) :
    resolveLoop service (p :: rest) ld lm
      = ((resolveLoop service rest (some data) p).1,
         p :: (resolveLoop service rest (some data) p).2) := by
  have hcne : ¬ (data.code ≠ "OK") := by simp [hcode]
  have hune : ¬ (urlsOf data ≠ []) := by simp [hurl]
  simp only [resolveLoop, hsp]
  rw [if_neg hcne, if_neg hune]

theorem resolveLoop_first_success (service : Profile → CallResult) :
    ∀ (trials : List Profile) (k : Nat) (p : Profile)
      (ld : Option RespData) (lm : Profile),
      (∀ q ∈ trials.take k, okEmptyB (service q) = true) →
      trials.get? k = some p →
      okNonemptyB (service p) = true →
      ∃ d, service p = CallResult.ok d ∧
        resolveLoop service trials ld lm
          = (Outcome.success p d, trials.take (k + 1)) := by
  intro trials
  induction trials with
  | nil =>
    intro k p ld lm _ hp
    simp at hp
  | cons hd rest ih =>
    intro k p ld lm hbefore hp hat
    match k with
    | 0 =>
      have hhd : hd = p := by
        rw [List.get?_cons_zero] at hp
        exact Option.some.inj hp
      subst hhd
      cases hsp : service hd with
      | transportError s m =>
        rw [hsp] at hat
        simp [okNonemptyB] at hat
      | ok data =>
        rw [hsp] at hat
        simp only [okNonemptyB, Bool.and_eq_true, beq_iff_eq, Bool.not_eq_true'] at hat
        have hune : urlsOf data ≠ [] := by
          intro h
          rw [h] at hat
          simp at hat
        have hcne : ¬ (data.code ≠ "OK") := by simp [hat.1]
        refine ⟨data, rfl, ?_⟩
        simp only [resolveLoop, hsp]
        rw [if_neg hcne, if_pos hune]
        rfl
    | Nat.succ k' =>
      have h0 : okEmptyB (service hd) = true :=
        hbefore hd (by rw [List.take_succ_cons]; exact List.mem_cons_self hd _)
      cases hsp : service hd with
      | transportError s m =>
        rw [hsp] at h0
        simp [okEmptyB] at h0
      | ok data =>
        rw [hsp] at h0
        simp only [okEmptyB, Bool.and_eq_true, beq_iff_eq, List.isEmpty_iff] at h0
        have hbefore' : ∀ q ∈ rest.take k', okEmptyB (service q) = true := by
          intro q hq
          exact hbefore q (by rw [List.take_succ_cons]; exact List.mem_cons_of_mem hd hq)
        obtain ⟨d, hd2, hres⟩ := ih k' p (some data) hd hbefore'
          (by rwa [List.get?_cons_succ] at hp) hat
        refine ⟨d, hd2, ?_⟩
        rw [resolveLoop_cons_empty service hd rest ld lm data hsp h0.1 h0.2, hres]
        rfl

theorem resolveLoop_error (service : Profile → CallResult) :
    ∀ (trials : List Profile) (k : Nat) (p : Profile)
      (ld : Option RespData) (lm : Profile),
      (∀ q ∈ trials.take k, okEmptyB (service q) = true) →
      trials.get? k = some p →
      errB (service p) = true →
      ∃ msg, resolveLoop service trials ld lm
          = (Outcome.failure msg, trials.take (k + 1)) := by
  intro trials
  induction trials with
  | nil =>
    intro k p ld lm _ hp
    simp at hp
  | cons hd rest ih =>
    intro k p ld lm hbefore hp hat
    match k with
    | 0 =>
      have hhd : hd = p := by
        rw [List.get?_cons_zero] at hp
        exact Option.some.inj hp
      subst hhd
      cases hsp : service hd with
      | transportError s m =>
        refine ⟨"HTTP " ++ toString s ++ ": " ++ strOr m "Unknown error", ?_⟩
        rw [resolveLoop, hsp]
        rfl
      | ok data =>
        rw [hsp] at hat
        simp only [errB, bne_iff_ne, ne_eq] at hat
        refine ⟨strOr data.message "Server returned error", ?_⟩
        rw [resolveLoop, hsp]
        simp [hat]
    | Nat.succ k' =>
      have h0 : okEmptyB (service hd) = true :=
        hbefore hd (by rw [List.take_succ_cons]; exact List.mem_cons_self hd _)
      cases hsp : service hd with
      | transportError s m =>
        rw [hsp] at h0
        simp [okEmptyB] at h0
      | ok data =>
        rw [hsp] at h0
        simp only [okEmptyB, Bool.and_eq_true, beq_iff_eq, List.isEmpty_iff] at h0
        have hbefore' : ∀ q ∈ rest.take k', okEmptyB (service q) = true := by
          intro q hq
          exact hbefore q (by rw [List.take_succ_cons]; exact List.mem_cons_of_mem hd hq)
        obtain ⟨msg, hres⟩ := ih k' p (some data) hd hbefore'
          (by rwa [List.get?_cons_succ] at hp) hat
        refine ⟨msg, ?_⟩
        rw [resolveLoop_cons_empty service hd rest ld lm data hsp h0.1 h0.2, hres]
        rfl

theorem resolveLoop_exhaust (service : Profile → CallResult) :
    ∀ (trials : List Profile), trials ≠ [] →
      (∀ q ∈ trials, okEmptyB (service q) = true) →
      ∀ (ld : Option RespData) (lm : Profile),
      ∃ p d, trials.getLast? = some p ∧ service p = CallResult.ok d ∧
        d.code = "OK" ∧ urlsOf d = [] ∧
        resolveLoop service trials ld lm = (Outcome.emptyExhausted (some d) p, trials) := by
  intro trials
  induction trials with
  | nil => intro h; exact absurd rfl h
  | cons p rest ih =>
    intro _ hall ld lm
    have h0 : okEmptyB (service p) = true := hall p (List.mem_cons_self p rest)
    cases hsp : service p with
    | transportError s m =>
      rw [hsp] at h0
      simp [okEmptyB] at h0
    | ok data =>
      rw [hsp] at h0
      simp only [okEmptyB, Bool.and_eq_true, beq_iff_eq, List.isEmpty_iff] at h0
      cases rest with
      | nil =>
        refine ⟨p, data, rfl, hsp, h0.1, h0.2, ?_⟩
        rw [resolveLoop_cons_empty service p [] ld lm data hsp h0.1 h0.2]
        rfl
      | cons q rest' =>
        have hall' : ∀ r ∈ q :: rest', okEmptyB (service r) = true := by
          intro r hr
          exact hall r (List.mem_cons_of_mem p hr)
        obtain ⟨pl, d, hlast, hsd, hcode, hurl, hres⟩ :=
          ih (by simp) hall' (some data) p
        refine ⟨pl, d, ?_, hsd, hcode, hurl, ?_⟩
        · rwa [List.getLast?_cons_cons]
        · rw [resolveLoop_cons_empty service p (q :: rest') ld lm data hsp h0.1 h0.2, hres]

/-- C1: `resolve` walks the trial ladder in order (for each density,
`withoutSplits = false` before `true`, before the next density — this is
how `profileTrials` is built from `densityCandidates`); if every trial
before position `k` yields "OK" with zero artifacts and the trial at `k`
yields "OK" with at least one artifact, then the loop short-circuits at
`k`: exactly the trials up to and including `k` are called, in ladder
order, and the returned `success` is tagged with exactly that profile. -/
theorem resolve_first_success (service : Profile → CallResult) (e : Option Int) (dpr : ℚ)
    (k : Nat) (p : Profile)
    (hbefore : ∀ q ∈ (profileTrials e dpr).take k, okEmptyB (service q) = true)
    (hp : (profileTrials e dpr).get? k = some p)
    (hat : okNonemptyB (service p) = true) :
    ∃ d, service p = CallResult.ok d ∧
      downloadApp service e dpr
        = (Outcome.success p d, (profileTrials e dpr).take (k + 1)) := by
  unfold downloadApp
  exact resolveLoop_first_success service (profileTrials e dpr) k p none _ hbefore hp hat

/-- Witness for C1: the spec's mocked scenario — empty everywhere before
`(160, true)` (position 7 of the ladder for explicit density 480),
non-empty at `(160, true)`: success is tagged `(160, true)` and exactly
the first 8 trials are called. -/
theorem resolve_first_success_witness :
    ∃ d, mockService160 { screenDensity := 160, withoutSplits := true } = CallResult.ok d ∧
      downloadApp mockService160 (some 480) 1
        = (Outcome.success { screenDensity := 160, withoutSplits := true } d,
           (profileTrials (some 480) 1).take 8) :=
  resolve_first_success mockService160 (some 480) 1 7
    { screenDensity := 160, withoutSplits := true }
    (by decide) (by decide) (by decide)

/-- C2: if every trial before position `k` yields "OK" with zero
artifacts and the call at `k` has an error status (non-2xx transport
status or a non-"OK" envelope code), the whole operation aborts there:
the outcome is `failure` and exactly the trials up to and including `k`
are called — zero further resolution calls are issued. -/
theorem resolve_error_aborts (service : Profile → CallResult) (e : Option Int) (dpr : ℚ)
    (k : Nat) (p : Profile)
    (hbefore : ∀ q ∈ (profileTrials e dpr).take k, okEmptyB (service q) = true)
    (hp : (profileTrials e dpr).get? k = some p)
    (hat : errB (service p) = true) :
    ∃ msg, downloadApp service e dpr
        = (Outcome.failure msg, (profileTrials e dpr).take (k + 1)) := by
  unfold downloadApp
  exact resolveLoop_error service (profileTrials e dpr) k p none _ hbefore hp hat

/-- Witness for C2: a service answering a non-"OK" code on the very first
trial makes `resolve` fail immediately with exactly one call issued. -/
theorem resolve_error_aborts_witness :
    ∃ msg, downloadApp mockErrService (some 480) 1
        = (Outcome.failure msg, (profileTrials (some 480) 1).take 1) :=
  resolve_error_aborts mockErrService (some 480) 1 0
    { screenDensity := 480, withoutSplits := false }
    (by decide) (by decide) (by decide)

/-- C3: if every profile in the trial sequence returns "OK" with zero
artifacts, `resolve` ends in the distinct non-error `emptyExhausted`
outcome carrying the response data of the last-tried profile (which is
also recorded as `lastMeta`), having called every trial. -/
theorem resolve_exhaustion (service : Profile → CallResult) (e : Option Int) (dpr : ℚ)
    (hall : ∀ q ∈ profileTrials e dpr, okEmptyB (service q) = true) :
    ∃ p d, (profileTrials e dpr).getLast? = some p ∧
      service p = CallResult.ok d ∧ d.code = "OK" ∧ urlsOf d = [] ∧
      downloadApp service e dpr
        = (Outcome.emptyExhausted (some d) p, profileTrials e dpr) := by
  unfold downloadApp
  refine resolveLoop_exhaust service (profileTrials e dpr) ?_ hall none _
  intro hempty
  rw [profileTrials] at hempty
  rcases hcand : densityCandidates e dpr with _ | ⟨c, cs⟩
  · rw [densityCandidates, dedupFirst, dedupFirstAux,
      if_neg (List.not_mem_nil (requestedDensity e dpr))] at hcand
    exact List.noConfusion hcand
  · rw [hcand] at hempty
    simp [List.flatMap_cons] at hempty

/-- Witness for C3: the all-empty mock service exhausts the full ladder
and yields `emptyExhausted` with the last profile `(0, true)`. -/
theorem resolve_exhaustion_witness :
    ∃ p d, (profileTrials (some 480) 1).getLast? = some p ∧
      mockEmptyService p = CallResult.ok d ∧ d.code = "OK" ∧ urlsOf d = [] ∧
      downloadApp mockEmptyService (some 480) 1
        = (Outcome.emptyExhausted (some d) p, profileTrials (some 480) 1) :=
  resolve_exhaustion mockEmptyService (some 480) 1 (by decide)

/-! ### The artifact descriptor builder -/

theorem buildDownloadPlan_eq (appId : Int) (vc : Option Int) (urls : List RawArtifact) :
    buildDownloadPlan appId vc urls
      = assignRoles appId vc ((sortBySizeDesc (mkItems 0 urls)).head?.map Item.idx) 1
          (mkItems 0 urls) := rfl

theorem mkItems_idx_ge :
    ∀ (urls : List RawArtifact) (n : Nat), ∀ i ∈ mkItems n urls, n ≤ i.idx := by
  intro urls
  induction urls with
  | nil => intro n i hi; simp [mkItems] at hi
  | cons u us ih =>
    intro n i hi
    rw [mkItems] at hi
    by_cases hu : truthyStr u.url = true
    · rw [if_pos hu] at hi
      rcases List.mem_cons.mp hi with rfl | h
      · exact Nat.le_refl n
      · exact Nat.le_of_succ_le (ih (n + 1) i h)
    · rw [if_neg hu] at hi
      exact Nat.le_of_succ_le (ih (n + 1) i hi)

theorem mkItems_pairwise :
    ∀ (urls : List RawArtifact) (n : Nat),
      List.Pairwise (fun a b => a.idx < b.idx) (mkItems n urls) := by
  intro urls
  induction urls with
  | nil => intro n; simp [mkItems]
  | cons u us ih =>
    intro n
    rw [mkItems]
    by_cases hu : truthyStr u.url = true
    · rw [if_pos hu]
      refine List.pairwise_cons.mpr ⟨?_, ih (n + 1)⟩
      intro b hb
      exact mkItems_idx_ge us (n + 1) b hb
    · rw [if_neg hu]
      exact ih (n + 1)

theorem mkItems_length :
    ∀ (urls : List RawArtifact) (n : Nat),
      (mkItems n urls).length = (urls.filter (fun u => truthyStr u.url)).length := by
  intro urls
  induction urls with
  | nil => intro n; rfl
  | cons u us ih =>
    intro n
    rw [mkItems, List.filter_cons]
    by_cases hu : truthyStr u.url = true
    · rw [if_pos hu, if_pos hu, List.length_cons, List.length_cons, ih (n + 1)]
    · rw [if_neg hu, if_neg hu, ih (n + 1)]

theorem sortBySizeDesc_head : ∀ (l : List Item), l ≠ [] →
    ∃ h l₁ l₂, (sortBySizeDesc l).head? = some h ∧ l = l₁ ++ h :: l₂ ∧
      (∀ j ∈ l, sizeKey j ≤ sizeKey h) ∧ (∀ j ∈ l₁, sizeKey j < sizeKey h) := by
  intro l
  induction l with
  | nil => intro h; exact absurd rfl h
  | cons x xs ih =>
    intro _
    cases xs with
    | nil =>
      refine ⟨x, [], [], rfl, rfl, ?_, ?_⟩
      · intro j hj
        rcases List.mem_cons.mp hj with rfl | hj2
        · exact le_refl _
        · simp at hj2
      · intro j hj
        simp at hj
    | cons y ys =>
      obtain ⟨h', l₁, l₂, hhead, hdec, hmax, hstrict⟩ := ih (by simp)
      rcases hs : sortBySizeDesc (y :: ys) with _ | ⟨h'', t''⟩
      · rw [hs] at hhead
        exact absurd hhead (by simp)
      · rw [hs, List.head?_cons] at hhead
        replace hhead : h'' = h' := Option.some.inj hhead
        subst hhead
        by_cases hcmp : sizeKey h'' ≤ sizeKey x
        · refine ⟨x, [], y :: ys, ?_, rfl, ?_, ?_⟩
          · rw [sortBySizeDesc, hs, insertBySizeDesc, if_pos hcmp, List.head?_cons]
          · intro j hj
            rcases List.mem_cons.mp hj with rfl | hj2
            · exact le_refl _
            · exact le_trans (hmax j hj2) hcmp
          · intro j hj
            simp at hj
        · refine ⟨h'', x :: l₁, l₂, ?_, ?_, ?_, ?_⟩
          · rw [sortBySizeDesc, hs, insertBySizeDesc, if_neg hcmp, List.head?_cons]
          · rw [List.cons_append, ← hdec]
          · intro j hj
            rcases List.mem_cons.mp hj with rfl | hj2
            · exact le_of_lt (lt_of_not_le hcmp)
            · exact hmax j hj2
          · intro j hj
            rcases List.mem_cons.mp hj with rfl | hj2
            · exact lt_of_not_le hcmp
            · exact hstrict j hj2

theorem assignRoles_map_toItem (appId : Int) (vc : Option Int) (b : Option Nat) :
    ∀ (l : List Item) (c : Nat),
      (assignRoles appId vc b c l).map Descriptor.toItem = l := by
  intro l
  induction l with
  | nil => intro c; rfl
  | cons i rest ih =>
    intro c
    rw [assignRoles]
    by_cases hb : b = some i.idx
    · rw [if_pos hb, List.map_cons, ih c]
      rfl
    · rw [if_neg hb, List.map_cons, ih (c + 1)]
      rfl

theorem assignRoles_base_mem (appId : Int) (vc : Option Int) (b : Option Nat) :
    ∀ (l : List Item) (c : Nat) (d : Descriptor), d ∈ assignRoles appId vc b c l →
      d.role = "base" → b = some d.idx ∧ d.toItem ∈ l := by
  intro l
  induction l with
  | nil => intro c d hd; simp [assignRoles] at hd
  | cons i rest ih =>
    intro c d hd hrole
    rw [assignRoles] at hd
    by_cases hb : b = some i.idx
    · rw [if_pos hb] at hd
      rcases List.mem_cons.mp hd with rfl | hd2
      · exact ⟨hb, List.mem_cons_self i rest⟩
      · obtain ⟨h1, h2⟩ := ih c d hd2 hrole
        exact ⟨h1, List.mem_cons_of_mem i h2⟩
    · rw [if_neg hb] at hd
      rcases List.mem_cons.mp hd with rfl | hd2
      · simp at hrole
      · obtain ⟨h1, h2⟩ := ih (c + 1) d hd2 hrole
        exact ⟨h1, List.mem_cons_of_mem i h2⟩

theorem assignRoles_base_countP (appId : Int) (vc : Option Int) (b : Option Nat) :
    ∀ (l : List Item) (c : Nat),
      (assignRoles appId vc b c l).countP (fun d => d.role == "base")
        = l.countP (fun i => b == some i.idx) := by
  intro l
  induction l with
  | nil => intro c; rfl
  | cons i rest ih =>
    intro c
    rw [assignRoles]
    by_cases hb : b = some i.idx
    · rw [if_pos hb, List.countP_cons, List.countP_cons, ih c]
      simp [hb]
    · rw [if_neg hb, List.countP_cons, List.countP_cons, ih (c + 1)]
      simp [hb]

theorem assignRoles_roles (appId : Int) (vc : Option Int) (b : Option Nat) :
    ∀ (l : List Item) (c : Nat),
      (assignRoles appId vc b c l).all
          (fun d => d.role == "base" || d.role == "config") = true := by
  intro l
  induction l with
  | nil => intro c; rfl
  | cons i rest ih =>
    intro c
    rw [assignRoles]
    by_cases hb : b = some i.idx
    · rw [if_pos hb, List.all_cons, ih c]
      rfl
    · rw [if_neg hb, List.all_cons, ih (c + 1)]
      rfl

theorem assignRoles_config_seqs (appId : Int) (vc : Option Int) (b : Option Nat) :
    ∀ (l : List Item) (c : Nat),
      (assignRoles appId vc b c l).filterMap
          (fun d => if d.role == "config" then d.sequenceNumber else none)
        = List.range' c
            ((assignRoles appId vc b c l).countP (fun d => d.role == "config")) := by
  intro l
  induction l with
  | nil => intro c; rfl
  | cons i rest ih =>
    intro c
    rw [assignRoles]
    by_cases hb : b = some i.idx
    · rw [if_pos hb, List.filterMap_cons, List.countP_cons]
      simp only [show (("base" : String) == "config") = false from rfl, if_false,
        Bool.false_eq_true, Nat.add_zero]
      exact ih c
    · rw [if_neg hb, List.filterMap_cons, List.countP_cons]
      simp only [show (("config" : String) == "config") = true from rfl, if_true,
        Nat.add_one, List.range'_succ]
      rw [ih (c + 1)]

/-- C5: whenever at least one entry carries a URL, exactly one descriptor
of the plan has role "base", and it is the URL-bearing entry with the
maximal size (an absent size counting as 0), ties resolved in favour of
the smallest original index. -/
theorem base_role_unique_max (appId : Int) (vc : Option Int) (urls : List RawArtifact)
    (hne : mkItems 0 urls ≠ []) :
    (buildDownloadPlan appId vc urls).countP (fun d => d.role == "base") = 1 ∧
    ∀ d ∈ buildDownloadPlan appId vc urls, d.role = "base" →
      (∀ j ∈ mkItems 0 urls, sizeKey j ≤ sizeKey d.toItem) ∧
      (∀ j ∈ mkItems 0 urls, sizeKey j = sizeKey d.toItem → d.idx ≤ j.idx) := by
  obtain ⟨h, l₁, l₂, hhead, hdec, hmax, hstrict⟩ := sortBySizeDesc_head (mkItems 0 urls) hne
  have hpair := mkItems_pairwise urls 0
  have hnodup : (mkItems 0 urls).Nodup :=
    hpair.imp (fun hab heq => by rw [heq] at hab; exact lt_irrefl _ hab)
  have hinj : ∀ a ∈ mkItems 0 urls, ∀ b ∈ mkItems 0 urls, a.idx = b.idx → a = b := by
    have hmapnodup : ((mkItems 0 urls).map Item.idx).Nodup :=
      List.pairwise_map.mpr (hpair.imp (fun hab => Nat.ne_of_lt hab))
    exact fun a ha b hb => List.inj_on_of_nodup_map hmapnodup ha hb
  have hmem_h : h ∈ mkItems 0 urls := by
    rw [hdec]
    exact List.mem_append.mpr (Or.inr (List.mem_cons_self _ _))
  have hbase : (sortBySizeDesc (mkItems 0 urls)).head?.map Item.idx = some h.idx := by
    rw [hhead]
    rfl
  constructor
  · rw [buildDownloadPlan_eq, hbase, assignRoles_base_countP]
    have hcongr : (mkItems 0 urls).countP (fun i => some h.idx == some i.idx)
        = (mkItems 0 urls).countP (fun i => i == h) := by
      apply List.countP_congr
      intro x hx
      constructor
      · intro hbx
        have hix : h.idx = x.idx := by simpa using hbx
        exact beq_iff_eq.mpr (hinj x hx h hmem_h hix.symm)
      · intro hxh
        have hx2 : x = h := beq_iff_eq.mp hxh
        subst hx2
        simp
    rw [hcongr, ← List.count_eq_countP]
    exact List.count_eq_one_of_mem hnodup hmem_h
  · intro d hd hrole
    rw [buildDownloadPlan_eq, hbase] at hd
    obtain ⟨hb, hmemItem⟩ := assignRoles_base_mem appId vc _ (mkItems 0 urls) 1 d hd hrole
    have hidx : h.idx = d.idx := Option.some.inj hb
    have hitem : d.toItem = h := hinj d.toItem hmemItem h hmem_h hidx.symm
    constructor
    · intro j hj
      rw [hitem]
      exact hmax j hj
    · intro j hj hsz
      rw [hitem] at hsz
      rw [← hidx]
      have hpair2 : List.Pairwise (fun a b => a.idx < b.idx) (l₁ ++ h :: l₂) := hdec ▸ hpair
      rw [hdec] at hj
      rcases List.mem_append.mp hj with hj1 | hj2
      · exact absurd hsz (ne_of_lt (hstrict j hj1))
      · rcases List.mem_cons.mp hj2 with rfl | hj3
        · exact le_refl _
        · exact le_of_lt (List.rel_of_pairwise_cons
            (List.Pairwise.sublist (List.sublist_append_right l₁ _) hpair2) hj3)

/-- Witness for C5: a four-entry list (one entry without a URL, two tied
at the maximal size) has exactly one base descriptor. -/
theorem base_role_unique_max_witness :
    mkItems 0 exArtifacts ≠ [] ∧
    (buildDownloadPlan 1 none exArtifacts).countP (fun d => d.role == "base") = 1 :=
  ⟨by decide, (base_role_unique_max 1 none exArtifacts (by decide)).1⟩

/-- C6: the plan keeps exactly the URL-bearing entries in their original
order (so entries lacking a URL are filtered out), every descriptor is
either "base" or "config", and the config sequence numbers read off in
plan order are exactly 1..N — numbering follows original relative
position, not size. -/
theorem config_numbering (appId : Int) (vc : Option Int) (urls : List RawArtifact) :
    (buildDownloadPlan appId vc urls).map Descriptor.toItem = mkItems 0 urls ∧
    (buildDownloadPlan appId vc urls).length
        = (urls.filter (fun u => truthyStr u.url)).length ∧
    (buildDownloadPlan appId vc urls).all
        (fun d => d.role == "base" || d.role == "config") = true ∧
    (buildDownloadPlan appId vc urls).filterMap
        (fun d => if d.role == "config" then d.sequenceNumber else none)
      = List.range' 1
          ((buildDownloadPlan appId vc urls).countP (fun d => d.role == "config")) := by
  refine ⟨?_, ?_, ?_, ?_⟩
  · rw [buildDownloadPlan_eq]
    exact assignRoles_map_toItem appId vc _ (mkItems 0 urls) 1
  · have hlen := congrArg List.length
      (assignRoles_map_toItem appId vc
        ((sortBySizeDesc (mkItems 0 urls)).head?.map Item.idx) (mkItems 0 urls) 1)
    rw [List.length_map] at hlen
    rw [buildDownloadPlan_eq, hlen, mkItems_length urls 0]
  · rw [buildDownloadPlan_eq]
    exact assignRoles_roles appId vc _ (mkItems 0 urls) 1
  · rw [buildDownloadPlan_eq]
    exact assignRoles_config_seqs appId vc _ (mkItems 0 urls) 1

/-! ### Filename formats -/

theorem assignRoles_filename_spec (appId : Int) (vc : Option Int) (b : Option Nat) :
    ∀ (l : List Item) (c : Nat), ∀ d ∈ assignRoles appId vc b c l,
      (d.role = "base" ∧ d.sequenceNumber = none ∧
        d.filename = "rustore_" ++ toString appId ++ "_" ++ vcRender vc ++ "_base"
          ++ hashSuffix d.hash ++ ".apk")
      ∨ (d.role = "config" ∧ ∃ n, d.sequenceNumber = some n ∧ c ≤ n ∧
        d.filename = "rustore_" ++ toString appId ++ "_" ++ vcRender vc ++ "_config"
          ++ toString n ++ hashSuffix d.hash ++ ".apk") := by
  intro l
  induction l with
  | nil => intro c d hd; simp [assignRoles] at hd
  | cons i rest ih =>
    intro c d hd
    rw [assignRoles] at hd
    by_cases hb : b = some i.idx
    · rw [if_pos hb] at hd
      rcases List.mem_cons.mp hd with rfl | hd2
      · exact Or.inl ⟨rfl, rfl, rfl⟩
      · exact ih c d hd2
    · rw [if_neg hb] at hd
      rcases List.mem_cons.mp hd with rfl | hd2
      · exact Or.inr ⟨rfl, c, rfl, le_refl c, rfl⟩
      · rcases ih (c + 1) d hd2 with h | ⟨hrole, n, hseq, hcn, hfn⟩
        · exact Or.inl h
        · exact Or.inr ⟨hrole, n, hseq, Nat.le_of_succ_le hcn, hfn⟩

/-- C7: every generated filename is exactly
`rustore_{appId}_{versionCode}_base.apk` or
`rustore_{appId}_{versionCode}_config{n}.apk` according to its role,
with `_{hash12}` inserted before `.apk` exactly when the hash stripped
of non-alphanumerics and truncated to 12 characters is non-empty, and
an absent versionCode rendered literally as `unknown`. -/
theorem filename_format (appId : Int) (vc : Option Int) (urls : List RawArtifact) :
    vcRender none = "unknown" ∧
    ∀ d ∈ buildDownloadPlan appId vc urls,
      (d.role = "base" →
        d.filename = "rustore_" ++ toString appId ++ "_" ++ vcRender vc ++ "_base"
          ++ (if safeHash d.hash = "" then "" else "_" ++ safeHash d.hash) ++ ".apk")
      ∧ (d.role = "config" →
        ∃ n, d.sequenceNumber = some n ∧
          d.filename = "rustore_" ++ toString appId ++ "_" ++ vcRender vc ++ "_config"
            ++ toString n
            ++ (if safeHash d.hash = "" then "" else "_" ++ safeHash d.hash) ++ ".apk") := by
  refine ⟨rfl, ?_⟩
  intro d hd
  rw [buildDownloadPlan_eq] at hd
  rcases assignRoles_filename_spec appId vc _ (mkItems 0 urls) 1 d hd with
    ⟨hrole, _, hfn⟩ | ⟨hrole, n, hseq, _, hfn⟩
  · constructor
    · intro _
      exact hfn
    · intro hc
      rw [hrole] at hc
      simp at hc
  · constructor
    · intro hc
      rw [hrole] at hc
      simp at hc
    · intro _
      exact ⟨n, hseq, hfn⟩

/-- Witness for C7: the spec's truncation example — hash
`"ab-cd!!12345678901234"` strips and truncates to `abcd12345678`
(12 characters), versionCode absent renders as `unknown`. -/
theorem filename_format_witness :
    exHashDescriptor ∈ buildDownloadPlan 1 none exHashArtifacts ∧
    safeHash exHashDescriptor.hash = "abcd12345678" ∧
    exHashDescriptor.filename
      = "rustore_" ++ toString (1 : Int) ++ "_" ++ vcRender none ++ "_base"
        ++ (if safeHash exHashDescriptor.hash = "" then ""
            else "_" ++ safeHash exHashDescriptor.hash) ++ ".apk" :=
  ⟨by decide, by decide,
   ((filename_format 1 none exHashArtifacts).2 exHashDescriptor (by decide)).1 rfl⟩

/-! ### Export formatters -/

theorem allLinks_length (urls : List RawArtifact) :
    (allLinks urls).length = (urls.filter (fun u => truthyStr u.url)).length := by
  induction urls with
  | nil => rfl
  | cons u us ih =>
    simp only [allLinks] at ih ⊢
    rw [List.filterMap_cons, List.filter_cons]
    cases hu : u.url with
    | none => simpa [truthyStr] using ih
    | some s =>
      by_cases hs : s = ""
      · subst hs
        simpa [truthyStr] using ih
      · simpa [truthyStr, hs] using ih

theorem plan_length (appId : Int) (vc : Option Int) (urls : List RawArtifact) :
    (buildDownloadPlan appId vc urls).length
      = (urls.filter (fun u => truthyStr u.url)).length := by
  have hlen := congrArg List.length
    (assignRoles_map_toItem appId vc
      ((sortBySizeDesc (mkItems 0 urls)).head?.map Item.idx) (mkItems 0 urls) 1)
  rw [List.length_map] at hlen
  rw [buildDownloadPlan_eq, hlen, mkItems_length urls 0]

theorem str_head_ne (s t : String) (c1 c2 : Char)
    (h1 : s.data.head? = some c1) (h2 : t.data.head? = some c2) (hne : c1 ≠ c2) :
    s ≠ t := by
  intro h
  rw [h, h2] at h1
  exact hne (Option.some.inj h1).symm

theorem pwsh_fetch_head (d : Descriptor) :
    ("Invoke-WebRequest -Uri \"" ++ d.url ++ "\" -OutFile (Join-Path $outDir \""
        ++ d.filename ++ "\")").data.head? = some 'I' := by
  simp only [String.data_append, List.head?_append]
  rfl

theorem curl_fetch_head (d : Descriptor) :
    ("curl -L \"" ++ d.url ++ "\" -o \"downloads/" ++ d.filename ++ "\"").data.head?
      = some 'c' := by
  simp only [String.data_append, List.head?_append]
  rfl

theorem pwsh_install_iff (plan : List Descriptor) (split : Bool) :
    ("adb install-multiple @apks" ∈ pwshLines plan split) ↔ split = true := by
  constructor
  · intro hmem
    cases split with
    | true => rfl
    | false =>
      exfalso
      rw [pwshLines] at hmem
      simp only [Bool.false_eq_true, if_false, List.append_nil] at hmem
      rcases List.mem_append.mp hmem with hm | hm
      · rcases List.mem_append.mp hm with hm2 | hm2
        · exact absurd hm2 (by decide)
        · obtain ⟨d, _, heq⟩ := List.mem_map.mp hm2
          exact str_head_ne _ "adb install-multiple @apks" 'I' 'a' (pwsh_fetch_head d) rfl (by decide) heq
      · exact absurd hm (by decide)
  · intro hs
    subst hs
    rw [pwshLines]
    refine List.mem_append.mpr (Or.inr ?_)
    decide

theorem curl_install_iff (plan : List Descriptor) (split : Bool) :
    ("adb install-multiple downloads/*.apk" ∈ curlLines plan split) ↔ split = true := by
  constructor
  · intro hmem
    cases split with
    | true => rfl
    | false =>
      exfalso
      rw [curlLines] at hmem
      simp only [Bool.false_eq_true, if_false, List.append_nil] at hmem
      rcases List.mem_append.mp hmem with hm | hm
      · exact absurd hm (by decide)
      · obtain ⟨d, _, heq⟩ := List.mem_map.mp hm
        exact str_head_ne _ "adb install-multiple downloads/*.apk" 'c' 'a' (curl_fetch_head d) rfl (by decide) heq
  · intro hs
    subst hs
    rw [curlLines]
    refine List.mem_append.mpr (Or.inr ?_)
    decide

/-- C8: the link list and both shell-script formatters are pure functions
of the descriptor set (two invocations on identical input are
byte-identical); the link list preserves input order (its output is the
head link followed by a newline and the formatted tail); and each shell
script contains its batch-install invocation exactly when the plan has
more than one descriptor. -/
theorem formatters_pure_and_install_block (appId : Int) (vc : Option Int)
    (urls : List RawArtifact) (links : List String) :
    (toLinkList links = toLinkList links ∧
     pwshScript (buildDownloadPlan appId vc urls) (isSplitSet urls)
       = pwshScript (buildDownloadPlan appId vc urls) (isSplitSet urls) ∧
     curlScript (buildDownloadPlan appId vc urls) (isSplitSet urls)
       = curlScript (buildDownloadPlan appId vc urls) (isSplitSet urls)) ∧
    (∀ (a : String) (l : List String),
      toLinkList (a :: l) = if l = [] then a else a ++ "\n" ++ toLinkList l) ∧
    (("adb install-multiple @apks"
        ∈ pwshLines (buildDownloadPlan appId vc urls) (isSplitSet urls))
      ↔ 1 < (buildDownloadPlan appId vc urls).length) ∧
    (("adb install-multiple downloads/*.apk"
        ∈ curlLines (buildDownloadPlan appId vc urls) (isSplitSet urls))
      ↔ 1 < (buildDownloadPlan appId vc urls).length) := by
  have hsplit : isSplitSet urls = true ↔ 1 < (buildDownloadPlan appId vc urls).length := by
    rw [isSplitSet, decide_eq_true_iff, allLinks_length urls, plan_length appId vc urls]
  refine ⟨⟨rfl, rfl, rfl⟩, ?_, ?_, ?_⟩
  · intro a l
    cases l with
    | nil => rfl
    | cons b bs =>
      rw [if_neg (List.cons_ne_nil b bs)]
      rfl
  · rw [pwsh_install_iff]
    exact hsplit
  · rw [curl_install_iff]
    exact hsplit

/-- C9, evaluated on the code: `downloadApp` threads no cancellation
token — `requestDownloadLink`'s `fetch` carries no `AbortSignal`
(script.js lines 286-306) and the trial loop consults no cancellation
state — so the issued-call trace is a function of the service responses
alone.  In the claim's scenario (every response "OK" with an empty list,
cancellation requested after trial 1 returns), trial 2's call
`(480, withoutSplits = true)` is still issued, and in fact all 10
ladder calls are. -/
theorem trial2_called_despite_cancellation :
    (downloadApp mockEmptyService (some 480) 1).2.take 2
        = [{ screenDensity := 480, withoutSplits := false },
           { screenDensity := 480, withoutSplits := true }] ∧
    (downloadApp mockEmptyService (some 480) 1).2.length = 10 := by
  decide

/-! ### Decimal numerals (machinery for filename distinctness) -/

theorem digitVal_digitChar (m : Nat) (h : m < 10) :
    digitVal (Nat.digitChar m) = m := by
  interval_cases m <;> decide

theorem digitChar_isDigit (m : Nat) (h : m < 10) :
    (Nat.digitChar m).isDigit = true := by
  interval_cases m <;> decide

theorem toDigitsCore_isDigit :
    ∀ (fuel n : Nat) (ds : List Char), (∀ c ∈ ds, c.isDigit = true) →
      ∀ c ∈ Nat.toDigitsCore 10 fuel n ds, c.isDigit = true := by
  intro fuel
  induction fuel with
  | zero =>
    intro n ds hds c hc
    simp only [Nat.toDigitsCore] at hc
    exact hds c hc
  | succ f ih =>
    intro n ds hds c hc
    simp only [Nat.toDigitsCore] at hc
    by_cases h0 : n / 10 = 0
    · rw [if_pos h0] at hc
      rcases List.mem_cons.mp hc with rfl | hc2
      · exact digitChar_isDigit (n % 10) (Nat.mod_lt n (by norm_num))
      · exact hds c hc2
    · rw [if_neg h0] at hc
      refine ih (n / 10) (Nat.digitChar (n % 10) :: ds) ?_ c hc
      intro x hx
      rcases List.mem_cons.mp hx with rfl | hx2
      · exact digitChar_isDigit (n % 10) (Nat.mod_lt n (by norm_num))
      · exact hds x hx2

theorem toString_nat_digits (n : Nat) :
    ∀ c ∈ (toString n).data, c.isDigit = true := by
  intro c hc
  have hc2 : c ∈ Nat.toDigitsCore 10 (n + 1) n [] := hc
  exact toDigitsCore_isDigit (n + 1) n [] (by simp) c hc2

theorem toDigitsCore_val :
    ∀ (fuel n : Nat) (ds : List Char), n < fuel →
      valOfDigits (Nat.toDigitsCore 10 fuel n ds)
        = n * 10 ^ ds.length + valOfDigits ds := by
  intro fuel
  induction fuel with
  | zero =>
    intro n ds h
    exact absurd h (Nat.not_lt_zero n)
  | succ f ih =>
    intro n ds h
    simp only [Nat.toDigitsCore]
    by_cases h0 : n / 10 = 0
    · rw [if_pos h0]
      have hlt : n < 10 := by
        rcases Nat.lt_or_ge n 10 with h1 | h1
        · exact h1
        · exfalso
          have h2 : 1 ≤ n / 10 := (Nat.one_le_div_iff (by norm_num)).mpr h1
          rw [h0] at h2
          exact absurd h2 (by norm_num)
      rw [valOfDigits, digitVal_digitChar (n % 10) (Nat.mod_lt n (by norm_num)),
        Nat.mod_eq_of_lt hlt]
    · rw [if_neg h0]
      have hpos : 0 < n := by
        rcases Nat.eq_zero_or_pos n with rfl | hp
        · simp at h0
        · exact hp
      have hdiv : n / 10 < n := Nat.div_lt_self hpos (by norm_num)
      have hfuel : n / 10 < f := by omega
      rw [ih (n / 10) (Nat.digitChar (n % 10) :: ds) hfuel, List.length_cons,
        valOfDigits, digitVal_digitChar (n % 10) (Nat.mod_lt n (by norm_num)), pow_succ]
      have hform : n / 10 * (10 ^ ds.length * 10)
            + (n % 10 * 10 ^ ds.length + valOfDigits ds)
          = (10 * (n / 10) + n % 10) * 10 ^ ds.length + valOfDigits ds := by
        ring
      rw [hform, Nat.div_add_mod n 10]

theorem nat_repr_val (n : Nat) : valOfDigits (Nat.repr n).data = n := by
  show valOfDigits (Nat.toDigitsCore 10 (n + 1) n []) = n
  rw [toDigitsCore_val (n + 1) n [] (Nat.lt_succ_self n)]
  simp [valOfDigits]

theorem nat_repr_inj {m n : Nat} (h : Nat.repr m = Nat.repr n) : m = n := by
  have h2 := congrArg (fun s => valOfDigits s.data) h
  simp only [nat_repr_val] at h2
  exact h2

theorem toString_nat_inj {m n : Nat} (h : toString m = toString n) : m = n :=
  nat_repr_inj h

/-! ### Filename distinctness -/

theorem takeWhile_append_block (p : Char → Bool) :
    ∀ (l1 : List Char) (c : Char) (t : List Char),
      (∀ x ∈ l1, p x = true) → p c = false →
      (l1 ++ c :: t).takeWhile p = l1 := by
  intro l1
  induction l1 with
  | nil =>
    intro c t _ hc
    simp [List.takeWhile_cons, hc]
  | cons a l ih =>
    intro c t hall hc
    rw [List.cons_append, List.takeWhile_cons, hall a (List.mem_cons_self a l),
      if_pos rfl, ih c t (fun x hx => hall x (List.mem_cons_of_mem a hx)) hc]

theorem alnum_block_inj (rA rB : List Char) (cA cB : Char) (tA tB : List Char)
    (hA : ∀ c ∈ rA, c.isAlphanum = true) (hB : ∀ c ∈ rB, c.isAlphanum = true)
    (hcA : cA.isAlphanum = false) (hcB : cB.isAlphanum = false)
    (h : rA ++ cA :: tA = rB ++ cB :: tB) : rA = rB := by
  have h1 := congrArg (List.takeWhile (fun c => c.isAlphanum)) h
  rwa [takeWhile_append_block _ rA cA tA hA hcA,
    takeWhile_append_block _ rB cB tB hB hcB] at h1

theorem isAlphanum_of_isDigit (c : Char) (h : c.isDigit = true) :
    c.isAlphanum = true := by
  simp [Char.isAlphanum, h]

theorem hashSuffix_apk_data (hs : Option String) :
    ∃ c t, (hashSuffix hs).data ++ ['.', 'a', 'p', 'k'] = c :: t
      ∧ c.isAlphanum = false := by
  rw [hashSuffix]
  by_cases he : safeHash hs = ""
  · rw [if_pos he]
    exact ⟨'.', ['a', 'p', 'k'], rfl, by decide⟩
  · rw [if_neg he]
    refine ⟨'_', (safeHash hs).data ++ ['.', 'a', 'p', 'k'], ?_, by decide⟩
    rw [String.data_append]
    rfl

theorem base_form_split (appId : Int) (vc : Option Int) (hs : Option String) :
    "rustore_" ++ toString appId ++ "_" ++ vcRender vc ++ "_base"
        ++ hashSuffix hs ++ ".apk"
      = "rustore_" ++ toString appId ++ "_" ++ vcRender vc ++ "_" ++ "base"
        ++ hashSuffix hs ++ ".apk" := by
  apply String.ext
  simp only [String.data_append, List.append_assoc]
  rfl

theorem config_form_split (appId : Int) (vc : Option Int) (n : Nat) (hs : Option String) :
    "rustore_" ++ toString appId ++ "_" ++ vcRender vc ++ "_config" ++ toString n
        ++ hashSuffix hs ++ ".apk"
      = "rustore_" ++ toString appId ++ "_" ++ vcRender vc ++ "_"
        ++ ("config" ++ toString n) ++ hashSuffix hs ++ ".apk" := by
  apply String.ext
  simp only [String.data_append, List.append_assoc]
  rfl

theorem filename_ne (appId : Int) (vc : Option Int) (roleA roleB : String)
    (hA : ∀ c ∈ roleA.data, c.isAlphanum = true)
    (hB : ∀ c ∈ roleB.data, c.isAlphanum = true)
    (hne : roleA ≠ roleB) (hsA hsB : Option String) :
    "rustore_" ++ toString appId ++ "_" ++ vcRender vc ++ "_" ++ roleA
        ++ hashSuffix hsA ++ ".apk"
      ≠ "rustore_" ++ toString appId ++ "_" ++ vcRender vc ++ "_" ++ roleB
        ++ hashSuffix hsB ++ ".apk" := by
  intro heq
  apply hne
  apply String.ext
  have hd := congrArg String.data heq
  simp only [String.data_append, List.append_assoc] at hd
  have h1 := List.append_cancel_left hd
  have h2 := List.append_cancel_left h1
  have h3 := List.append_cancel_left h2
  have h4 := List.append_cancel_left h3
  have h5 := List.append_cancel_left h4
  obtain ⟨cA, tA2, hA2, hcA⟩ := hashSuffix_apk_data hsA
  obtain ⟨cB, tB2, hB2, hcB⟩ := hashSuffix_apk_data hsB
  rw [hA2, hB2] at h5
  exact alnum_block_inj roleA.data roleB.data cA cB tA2 tB2 hA hB hcA hcB h5

theorem base_role_alnum : ∀ c ∈ ("base" : String).data, c.isAlphanum = true := by
  decide

theorem config_role_alnum (n : Nat) :
    ∀ c ∈ (("config" : String) ++ toString n).data, c.isAlphanum = true := by
  intro c hc
  rw [String.data_append] at hc
  rcases List.mem_append.mp hc with h | h
  · exact (by decide : ∀ c ∈ ("config" : String).data, c.isAlphanum = true) c h
  · exact isAlphanum_of_isDigit c (toString_nat_digits n c h)

theorem base_ne_config_role (n : Nat) :
    ("base" : String) ≠ "config" ++ toString n :=
  str_head_ne "base" ("config" ++ toString n) 'b' 'c' rfl
    (by rw [String.data_append]; rfl) (by decide)

theorem config_role_inj (n m : Nat)
    (h : ("config" : String) ++ toString n = "config" ++ toString m) : n = m := by
  have hd := congrArg String.data h
  rw [String.data_append, String.data_append] at hd
  have h2 := List.append_cancel_left hd
  exact toString_nat_inj (String.ext h2)

theorem assignRoles_filenames_nodup (appId : Int) (vc : Option Int) (b : Option Nat) :
    ∀ (l : List Item) (c : Nat), List.Pairwise (fun x y => x.idx < y.idx) l →
      ((assignRoles appId vc b c l).map Descriptor.filename).Nodup := by
  intro l
  induction l with
  | nil => intro c _; simp [assignRoles]
  | cons i rest ih =>
    intro c hpair
    obtain ⟨hlt, hprest⟩ := List.pairwise_cons.mp hpair
    rw [assignRoles]
    by_cases hb : b = some i.idx
    · rw [if_pos hb, List.map_cons]
      refine List.nodup_cons.mpr ⟨?_, ih c hprest⟩
      intro hmem
      obtain ⟨e, he, heq⟩ := List.mem_map.mp hmem
      rcases assignRoles_filename_spec appId vc b rest c e he with
        ⟨hrole, _, _⟩ | ⟨_, n, _, _, hfn⟩
      · obtain ⟨hb2, hmem2⟩ := assignRoles_base_mem appId vc b rest c e he hrole
        have hlt2 : i.idx < e.toItem.idx := hlt e.toItem hmem2
        rw [hb] at hb2
        have hei : e.idx = i.idx := (Option.some.inj hb2).symm
        rw [show e.toItem.idx = e.idx from rfl, hei] at hlt2
        exact lt_irrefl _ hlt2
      · have heq2 : "rustore_" ++ toString appId ++ "_" ++ vcRender vc ++ "_config"
              ++ toString n ++ hashSuffix e.hash ++ ".apk"
            = "rustore_" ++ toString appId ++ "_" ++ vcRender vc ++ "_base"
              ++ hashSuffix i.hash ++ ".apk" := by
          rw [← hfn]
          exact heq
        rw [config_form_split, base_form_split] at heq2
        exact filename_ne appId vc ("config" ++ toString n) "base"
          (config_role_alnum n) base_role_alnum
          (fun hx => base_ne_config_role n hx.symm) e.hash i.hash heq2
    · rw [if_neg hb, List.map_cons]
      refine List.nodup_cons.mpr ⟨?_, ih (c + 1) hprest⟩
      intro hmem
      obtain ⟨e, he, heq⟩ := List.mem_map.mp hmem
      rcases assignRoles_filename_spec appId vc b rest (c + 1) e he with
        ⟨_, _, hfn⟩ | ⟨_, n, _, hcn, hfn⟩
      · have heq2 : "rustore_" ++ toString appId ++ "_" ++ vcRender vc ++ "_base"
              ++ hashSuffix e.hash ++ ".apk"
            = "rustore_" ++ toString appId ++ "_" ++ vcRender vc ++ "_config"
              ++ toString c ++ hashSuffix i.hash ++ ".apk" := by
          rw [← hfn]
          exact heq
        rw [config_form_split, base_form_split] at heq2
        exact filename_ne appId vc "base" ("config" ++ toString c)
          base_role_alnum (config_role_alnum c)
          (base_ne_config_role c) e.hash i.hash heq2
      · have heq2 : "rustore_" ++ toString appId ++ "_" ++ vcRender vc ++ "_config"
              ++ toString n ++ hashSuffix e.hash ++ ".apk"
            = "rustore_" ++ toString appId ++ "_" ++ vcRender vc ++ "_config"
              ++ toString c ++ hashSuffix i.hash ++ ".apk" := by
          rw [← hfn]
          exact heq
        rw [config_form_split, config_form_split] at heq2
        refine filename_ne appId vc ("config" ++ toString n) ("config" ++ toString c)
          (config_role_alnum n) (config_role_alnum c) ?_ e.hash i.hash heq2
        intro hx
        have hnc : n = c := config_role_inj n c hx
        omega

/-- C10: the filenames of a plan's descriptors are pairwise distinct for
every raw artifact list, whatever the hashes (absent, equal, or not):
there is at most one `base` filename, and config filenames carry distinct
decimal sequence numbers, which no hash segment can disguise because the
hash segment is separated by a non-alphanumeric character. -/
theorem plan_filenames_nodup (appId : Int) (vc : Option Int) (urls : List RawArtifact) :
    ((buildDownloadPlan appId vc urls).map Descriptor.filename).Nodup := by
  rw [buildDownloadPlan_eq]
  exact assignRoles_filenames_nodup appId vc _ (mkItems 0 urls) 1 (mkItems_pairwise urls 0)

end RuStore
